import Mathlib

/-!
Verification of the thumbnail-cache subsystem of the model-library app.

The cache (`ThumbnailCache` in the TypeScript source) stores thumbnail
data-URLs in `localStorage` under keys `"thumbnail_" ++ modelId`, with a
JSON-serialized record `{dataUrl, timestamp, size}` per key.

Embedding choices, all taken from the source:
* `localStorage` is modelled as an ordered association list `Store`
  (`localStorage.key i` enumerates in list order; `setItem` overwrites in
  place or appends; `removeItem` deletes the key).  Real `localStorage`
  keys are unique; the store invariant `NodupKeys` captures that.
* A stored string either round-trips through `JSON.parse` to a well-formed
  `CacheEntry` (`StoredValue.good`) or makes `JSON.parse` throw
  (`StoredValue.bad`); `parse` is the partial decoding function.
* Timestamps (`Date.now()`) are naturals (milliseconds).  The source
  compares `Date.now() - entry.timestamp > maxAge`; with JS numbers a
  future timestamp gives a negative difference and the comparison is
  false, exactly as with truncated `Nat` subtraction, so `Nat` subtraction
  is an exact embedding of that comparison.
* `dataUrl.length` (UTF-16 code units in JS) is `String.length`; thumbnail
  data-URLs are ASCII so the two coincide.
* `Math.ceil(n * 0.2)` for a JS integer `n`: `0.2` as a double is
  `0.2·(1 + 2⁻⁵⁴)`, and for every `n` in the integer range the rounded
  product never crosses an integer boundary (the relative error `2⁻⁵⁴` is
  strictly below half an ulp), so the result is exactly `⌈n/5⌉`, embedded
  as `(n + 4) / 5`.
* `Array.prototype.sort` is stable (ES2019); `List.insertionSort` with a
  `≤` comparison is the same stable sort.
* Write failures (`localStorage.setItem` throwing `QuotaExceededError`)
  are modelled by an oracle `wfail` deciding, from the store, key and
  value, whether a given write attempt throws.  Reads and removals do not
  throw in a browser; they are total.
-/

/-- A parsed cache entry: the JSON record `{dataUrl, timestamp, size}`
written by `ThumbnailCache.set`. -/
structure CacheEntry where
  dataUrl : String
  timestamp : Nat
  size : Nat
deriving DecidableEq

/-- A raw stored string: either the serialization of a well-formed entry,
or a string on which `JSON.parse` throws. -/
inductive StoredValue where
  | good (e : CacheEntry)
  | bad (s : String)
deriving DecidableEq

/-- `JSON.parse` + shape: succeeds exactly on serialized entries. -/
def parse : StoredValue → Option CacheEntry
  | .good e => some e
  | .bad _ => none

/-- `localStorage` as an ordered list of key/value pairs
(enumeration order of `localStorage.key i` is list order). -/
abbrev Store := List (String × StoredValue)

/-- `localStorage.getItem`. -/
def getItem (s : Store) (k : String) : Option StoredValue :=
  (s.find? (fun p => p.1 == k)).map (·.2)

/-- `localStorage.setItem`: overwrite in place, or append a new key. -/
def setItem : Store → String → StoredValue → Store
  | [], k, v => [(k, v)]
  | (k', v') :: t, k, v =>
    if k' = k then (k, v) :: t else (k', v') :: setItem t k v

/-- `localStorage.removeItem`. -/
def removeItem (s : Store) (k : String) : Store :=
  s.filter (fun p => p.1 ≠ k)

/-- JS `String.prototype.startsWith`: code-unit prefix test. -/
def jsStartsWith (s pre : String) : Bool :=
  pre.data.isPrefixOf s.data

/-- `CACHE_PREFIX` in the source: the cache's key namespace. -/
def CACHE_PREF : String := "thumbnail_"

/-- `MAX_CACHE_SIZE = 50 * 1024 * 1024`. -/
def MAX_CACHE_SIZE : Nat := 50 * 1024 * 1024

/-- `MAX_CACHE_ITEMS = 100`. -/
def MAX_CACHE_ITEMS : Nat := 100

/-- `maxAge = 7 * 24 * 60 * 60 * 1000` (7 days in ms), from `get`. -/
def MAX_AGE_MS : Nat := 7 * 24 * 60 * 60 * 1000

namespace ThumbnailCache

/-- The loop body of `getAllEntries`: `for (let i = 0; i < localStorage.length;
i++)`, reading `localStorage.key(i)`.  A key under the namespace whose value
fails to parse is removed *during* the iteration, after which the loop
continues with `i+1` against the shortened storage — so the element that
slides into index `i` is skipped, exactly as in the source.  The first
argument is structural fuel bounding the number of iterations; since `i`
grows by one per iteration and the storage never grows, `s.length - i`
iterations always suffice, so with the fuel used by `getAllEntries` the
fuel is never exhausted (`getAllEntriesAux_fuel` below). -/
def getAllEntriesAux : Nat → Store → Nat → Store × List (String × CacheEntry)
  | 0, s, _ => (s, [])
  | fuel + 1, s, i =>
    if h : i < s.length then
      let p := s[i]
      if jsStartsWith p.1 CACHE_PREF then
        match parse p.2 with
        | some e =>
          let r := getAllEntriesAux fuel s (i + 1)
          (r.1, (p.1, e) :: r.2)
        | none => getAllEntriesAux fuel (removeItem s p.1) (i + 1)
      else
        getAllEntriesAux fuel s (i + 1)
    else
      (s, [])

/-- `getAllEntries`: enumerate all parseable entries under the namespace,
deleting encountered corrupt ones; returns the (possibly mutated) storage
and the collected entries. -/
def getAllEntries (s : Store) : Store × List (String × CacheEntry) :=
  getAllEntriesAux s.length s 0

/-- `getCacheSize`. -/
def getCacheSize (s : Store) : Store × Nat :=
  let r := getAllEntries s
  (r.1, (r.2.map (fun q => q.2.size)).sum)

/-- `getStats` (count and total size; the formatted string is a pure
rendering of `size` and carries no extra state). -/
def getStats (s : Store) : Store × (Nat × Nat) :=
  let r := getAllEntries s
  (r.1, (r.2.length, (r.2.map (fun q => q.2.size)).sum))

/-- The comparator `(a, b) => a.entry.timestamp - b.entry.timestamp`
as the ordering used by the stable sort in `cleanup`. -/
def tsLe (a b : String × CacheEntry) : Prop :=
  a.2.timestamp ≤ b.2.timestamp

instance : DecidableRel tsLe := fun a b => Nat.decLe a.2.timestamp b.2.timestamp

/-- `entries.sort((a, b) => a.entry.timestamp - b.entry.timestamp)`:
a stable sort by timestamp (ES2019 `Array.prototype.sort` is stable;
insertion sort with `≤` is the same stable sort). -/
def sortEntries (l : List (String × CacheEntry)) : List (String × CacheEntry) :=
  List.insertionSort tsLe l

/-- `cleanup(count)`: enumerate, sort oldest-first, remove the first
`min(count, entries.length)` entries.  (`List.take` already truncates at
the length, matching `Math.min`.) -/
def cleanup (s : Store) (count : Nat) : Store :=
  let r := getAllEntries s
  let sorted := sortEntries r.2
  (sorted.take count).foldl (fun st q => removeItem st q.1) r.1

/-- `cleanupIfNeeded`: evict when total size strictly exceeds
`MAX_CACHE_SIZE` or the entry count strictly exceeds `MAX_CACHE_ITEMS`.
The JS removal count `Math.max(entries.length - MAX_CACHE_ITEMS + 10,
Math.ceil(entries.length * 0.2))` has integer value `len - 90`, which can
be negative; `len + 10 - MAX_CACHE_ITEMS` in `Nat` is `max 0 (len - 90)`,
and the ceiling argument is ≥ 1 whenever eviction triggers, so the
truncated maximum agrees with the JS one. -/
def cleanupIfNeeded (s : Store) : Store :=
  let r := getAllEntries s
  let totalSize := (r.2.map (fun q => q.2.size)).sum
  if MAX_CACHE_SIZE < totalSize ∨ MAX_CACHE_ITEMS < r.2.length then
    cleanup r.1 (max (r.2.length + 10 - MAX_CACHE_ITEMS) ((r.2.length + 4) / 5))
  else
    r.1

/-- `set(modelId, dataUrl)`: build the entry, run the capacity check, then
write.  If the write throws (oracle `wfail`), remove the 10 oldest entries
and retry once; a second failure is swallowed.  The retried entry is
rebuilt with the same field values (the second `Date.now()` call is
modelled by the same instant `now`). -/
def set (wfail : Store → String → StoredValue → Bool) (s : Store) (now : Nat)
    (modelId dataUrl : String) : Store :=
  let entry : CacheEntry := ⟨dataUrl, now, dataUrl.length⟩
  let s1 := cleanupIfNeeded s
  let key := CACHE_PREF ++ modelId
  if wfail s1 key (.good entry) then
    let s2 := cleanup s1 10
    if wfail s2 key (.good entry) then s2 else setItem s2 key (.good entry)
  else
    setItem s1 key (.good entry)

/-- The write oracle for an un-saturated storage medium: writes succeed. -/
def noFail : Store → String → StoredValue → Bool := fun _ _ _ => false

/-- `set` with always-succeeding writes. -/
def setOk (s : Store) (now : Nat) (modelId dataUrl : String) : Store :=
  set noFail s now modelId dataUrl

/-- `get(modelId)`: read and parse; an entry strictly older than
`MAX_AGE_MS` is removed and reported absent; a parse failure is caught and
reported absent (the key is left in place — the catch block only logs). -/
def get (s : Store) (now : Nat) (modelId : String) : Store × Option String :=
  let key := CACHE_PREF ++ modelId
  match getItem s key with
  | none => (s, none)
  | some v =>
    match parse v with
    | none => (s, none)
    | some e =>
      if MAX_AGE_MS < now - e.timestamp then (removeItem s key, none)
      else (s, some e.dataUrl)

/-- `remove(modelId)`. -/
def remove (s : Store) (modelId : String) : Store :=
  removeItem s (CACHE_PREF ++ modelId)

/-- `clear()`: enumerate and remove every returned key. -/
def clear (s : Store) : Store :=
  let r := getAllEntries s
  r.2.foldl (fun st q => removeItem st q.1) r.1

/-- `has(modelId) = get(modelId) !== null` (including `get`'s lazy-expiry
side effect on the storage). -/
def has (s : Store) (now : Nat) (modelId : String) : Store × Bool :=
  let r := get s now modelId
  (r.1, r.2.isSome)

end ThumbnailCache

/-- The selection applied to one raw stored pair during enumeration: a
parseable value under the namespace, with its parsed record. -/
def entrySel (p : String × StoredValue) : Option (String × CacheEntry) :=
  if jsStartsWith p.1 CACHE_PREF then (parse p.2).map (fun e => (p.1, e)) else none

/-- The live entries under the namespace, in enumeration order, with their
parsed records (a measuring function over the raw store). -/
def entriesOf (s : Store) : List (String × CacheEntry) :=
  s.filterMap entrySel

/-- Number of live cache entries. -/
def cacheCount (s : Store) : Nat := (entriesOf s).length

/-- Sum of the recorded `size` fields of the live cache entries. -/
def cacheSize (s : Store) : Nat := ((entriesOf s).map (fun q => q.2.size)).sum

/-- Every value stored under the cache namespace parses. -/
def GoodStore (s : Store) : Prop :=
  ∀ p ∈ s, jsStartsWith p.1 CACHE_PREF = true → (parse p.2).isSome = true

instance : DecidablePred GoodStore := fun s =>
  List.decidableBAll _ s

/-- Storage keys are pairwise distinct (true of real `localStorage`). -/
def NodupKeys (s : Store) : Prop := (s.map Prod.fst).Nodup

instance : DecidablePred NodupKeys := fun s =>
  List.nodupDecidable (s.map Prod.fst)

/-- Apply a sequence of `ThumbnailCache.set` calls
(`(modelId, dataUrl, Date.now())` per call) to a store. -/
def runSets (wfail : Store → String → StoredValue → Bool) :
    Store → List (String × String × Nat) → Store
  | s, [] => s
  | s, c :: cs => runSets wfail (ThumbnailCache.set wfail s c.2.2 c.1 c.2.1) cs

/-- Distinct model ids: the id of index `i` is `i` letters `a`. -/
def unaryId (i : Nat) : String := String.mk (List.replicate i 'a')

/-- 101 `set` calls with distinct ids, tiny payloads, increasing clock. -/
def calls101 : List (String × String × Nat) :=
  (List.range 101).map (fun i => (unaryId i, "d", i))

/-- A data-URL of 52428801 = 50 MiB + 1 characters. -/
def bigStr : String := String.mk (List.replicate 52428801 'a')

/-- A store of `n` entries with distinct ids, payload `u`, recorded size
`sz` each, and distinct creation timestamps `0, …, n-1`. -/
def mkStore (n : Nat) (u : String) (sz : Nat) : Store :=
  (List.range n).map (fun i => (CACHE_PREF ++ unaryId i, .good ⟨u, i, sz⟩))

/-- A store of 100 entries whose recorded sizes are 0.5 MiB each
(52428800 bytes in total — exactly at `MAX_CACHE_SIZE`), with distinct
creation timestamps `0, …, 99`. -/
def store100 : Store := mkStore 100 "" 524288

/-- A two-entry store whose recorded sizes (30 MiB each) exceed the size
cap, with distinct timestamps. -/
def storeW : Store :=
  [("thumbnail_a", .good ⟨"u", 7, 31457280⟩), ("thumbnail_b", .good ⟨"v", 3, 31457280⟩)]

/-!
### Exception layer

The same operations with JS exceptions made explicit: `Except String`
results, an oracle for `localStorage.setItem` throwing (quota), and
`JSON.parse` throwing on corrupt values.  `localStorage` reads and
removals do not throw in a browser and are total.  `tcatch` is
`try … catch`.
-/

/-- `try x catch e { h e }`. -/
def tcatch {α : Type} (x : Except String α) (h : String → Except String α) :
    Except String α :=
  match x with
  | .ok a => .ok a
  | .error e => h e

/-- `localStorage.setItem`, which may throw (quota exceeded), as decided
by the oracle `wfail`. -/
def setItemE (wfail : Store → String → StoredValue → Bool) (s : Store)
    (k : String) (v : StoredValue) : Except String Store :=
  if wfail s k v then .error "QuotaExceededError" else .ok (setItem s k v)

/-- `JSON.parse`, throwing on corrupt input. -/
def parseE : StoredValue → Except String CacheEntry
  | .good e => .ok e
  | .bad _ => .error "SyntaxError"

namespace ThumbnailCache

/-- `getAllEntries`'s loop with explicit exceptions.  The source wraps the
read-and-parse of each item in its own `try`, whose `catch` removes the
offending key and lets the loop continue: that per-item `try`/`catch` is
the `match` on `parseE`. -/
def getAllEntriesAuxE : Nat → Store → Nat →
    Except String (Store × List (String × CacheEntry))
  | 0, s, _ => .ok (s, [])
  | fuel + 1, s, i =>
    if h : i < s.length then
      let p := s[i]
      if jsStartsWith p.1 CACHE_PREF then
        match parseE p.2 with
        | .ok e => do
          let r ← getAllEntriesAuxE fuel s (i + 1)
          .ok (r.1, (p.1, e) :: r.2)
        | .error _ => getAllEntriesAuxE fuel (removeItem s p.1) (i + 1)
      else
        getAllEntriesAuxE fuel s (i + 1)
    else
      .ok (s, [])

/-- `getAllEntries` with explicit exceptions (no `try`/`catch` of its own
beyond the per-item one). -/
def getAllEntriesE (s : Store) : Except String (Store × List (String × CacheEntry)) :=
  getAllEntriesAuxE s.length s 0

/-- `getStats` with explicit exceptions: no `try`/`catch` in the source. -/
def getStatsE (s : Store) : Except String (Store × (Nat × Nat)) := do
  let r ← getAllEntriesE s
  .ok (r.1, (r.2.length, (r.2.map (fun q => q.2.size)).sum))

/-- `cleanup` with explicit exceptions.  Its body's primitives (reads,
sorting, removals) are total, so the surrounding `try`/`catch` of the
source has an unreachable handler. -/
def cleanupE (s : Store) (count : Nat) : Except String Store :=
  tcatch
    (do
      let r ← getAllEntriesE s
      .ok (((sortEntries r.2).take count).foldl (fun st q => removeItem st q.1) r.1))
    (fun _ => .ok s)

/-- `cleanupIfNeeded` with explicit exceptions (no `try`/`catch` of its
own; it runs inside `set`'s `try`). -/
def cleanupIfNeededE (s : Store) : Except String Store := do
  let r ← getAllEntriesE s
  let totalSize := (r.2.map (fun q => q.2.size)).sum
  if MAX_CACHE_SIZE < totalSize ∨ MAX_CACHE_ITEMS < r.2.length then
    cleanupE r.1 (max (r.2.length + 10 - MAX_CACHE_ITEMS) ((r.2.length + 4) / 5))
  else
    .ok r.1

/-- `set` with explicit exceptions.  The source's outer `try` covers
`cleanupIfNeeded` and the write; `cleanupIfNeeded` cannot throw (its
primitives are total), so the `catch` can only be entered with the
cleanup's mutations already committed — hoisting it out of the `tcatch`
is exact.  The `catch` removes the 10 oldest entries and retries the
write once inside a second `try` whose `catch` swallows the error. -/
def setE (wfail : Store → String → StoredValue → Bool) (s : Store) (now : Nat)
    (modelId dataUrl : String) : Except String Store := do
  let entry : CacheEntry := ⟨dataUrl, now, dataUrl.length⟩
  let key := CACHE_PREF ++ modelId
  let s1 ← cleanupIfNeededE s
  tcatch (setItemE wfail s1 key (.good entry))
    (fun _ => do
      let s2 ← cleanupE s1 10
      tcatch (setItemE wfail s2 key (.good entry)) (fun _ => .ok s2))

/-- `get` with explicit exceptions: the whole body sits in one `try`
whose `catch` returns `null`. -/
def getE (s : Store) (now : Nat) (modelId : String) :
    Except String (Store × Option String) :=
  let key := CACHE_PREF ++ modelId
  tcatch
    (match getItem s key with
      | none => .ok (s, none)
      | some v => do
        let e ← parseE v
        if MAX_AGE_MS < now - e.timestamp then .ok (removeItem s key, none)
        else .ok (s, some e.dataUrl))
    (fun _ => .ok (s, none))

/-- `remove` with explicit exceptions (`removeItem` is total; the
source still wraps it in `try`/`catch`). -/
def removeE (s : Store) (modelId : String) : Except String Store :=
  tcatch (.ok (removeItem s (CACHE_PREF ++ modelId))) (fun _ => .ok s)

/-- `clear` with explicit exceptions. -/
def clearE (s : Store) : Except String Store :=
  tcatch
    (do
      let r ← getAllEntriesE s
      .ok (r.2.foldl (fun st q => removeItem st q.1) r.1))
    (fun _ => .ok s)

/-- `has` with explicit exceptions: no `try` of its own; it only calls
`get`. -/
def hasE (s : Store) (now : Nat) (modelId : String) :
    Except String (Store × Bool) := do
  let r ← getE s now modelId
  .ok (r.1, r.2.isSome)

end ThumbnailCache

/-!
### 2D thumbnail composition

The `ThumbnailGenerator` 2D effect: a 400×400 canvas; the source image of
dimensions `w × h` is drawn scaled by `min (400/w) (400/h)` at the
centering offset.  Canvas geometry is done here in exact rational
arithmetic; the coordinates of the concrete 800×400 scenario are exactly
representable in binary floating point as well, so the embedding is exact
there. -/
def thumb2dLayout (w h : ℚ) : ℚ × ℚ × ℚ × ℚ :=
  let size : ℚ := 400
  let scale := min (size / w) (size / h)
  let scaledWidth := w * scale
  let scaledHeight := h * scale
  (scaledWidth, scaledHeight, (size - scaledWidth) / 2, (size - scaledHeight) / 2)

/-! ### Basic lemmas about the storage primitives -/

theorem parse_eq_some_iff {v : StoredValue} {e : CacheEntry} :
    parse v = some e ↔ v = .good e := by
  cases v <;> simp [parse]

theorem isPrefixOf_self_append (l t : List Char) : l.isPrefixOf (l ++ t) = true := by
  simp [List.isPrefixOf_iff_prefix, List.prefix_append]

theorem jsStartsWith_pref_append (id : String) :
    jsStartsWith (CACHE_PREF ++ id) CACHE_PREF = true := by
  show CACHE_PREF.data.isPrefixOf (CACHE_PREF ++ id).data = true
  have h : (CACHE_PREF ++ id).data = CACHE_PREF.data ++ id.data := rfl
  rw [h]
  exact isPrefixOf_self_append _ _

theorem getItem_setItem_self (s : Store) (k : String) (v : StoredValue) :
    getItem (setItem s k v) k = some v := by
  induction s with
  | nil => simp [setItem, getItem, List.find?]
  | cons p t ih =>
    by_cases hk : p.1 = k
    · simp [setItem, hk, getItem, List.find?]
    · simpa [setItem, hk, getItem, List.find?, hk] using ih

theorem keys_removeItem_sublist (s : Store) (k : String) :
    ((removeItem s k).map Prod.fst).Sublist (s.map Prod.fst) :=
  (List.filter_sublist s).map Prod.fst

theorem nodupKeys_removeItem {s : Store} (hn : NodupKeys s) (k : String) :
    NodupKeys (removeItem s k) :=
  (keys_removeItem_sublist s k).nodup hn

theorem keys_setItem (s : Store) (k : String) (v : StoredValue) :
    (setItem s k v).map Prod.fst =
      if k ∈ s.map Prod.fst then s.map Prod.fst else s.map Prod.fst ++ [k] := by
  induction s with
  | nil => simp [setItem]
  | cons p t ih =>
    by_cases hk : p.1 = k
    · simp [setItem, hk]
    · simp only [setItem, if_neg hk, List.map_cons, ih]
      have : (k ∈ p.1 :: t.map Prod.fst) ↔ (k ∈ t.map Prod.fst) := by
        simp [Ne.symm hk]
      by_cases hm : k ∈ t.map Prod.fst <;> simp [hm, this]

theorem nodupKeys_setItem {s : Store} (hn : NodupKeys s) (k : String) (v : StoredValue) :
    NodupKeys (setItem s k v) := by
  unfold NodupKeys
  rw [keys_setItem]
  by_cases hm : k ∈ s.map Prod.fst
  · simpa [hm] using hn
  · simp only [if_neg hm]
    exact List.Nodup.append hn (List.nodup_singleton k) (by simpa using hm)

theorem goodStore_removeItem {s : Store} (hg : GoodStore s) (k : String) :
    GoodStore (removeItem s k) := by
  intro p hp hpre
  exact hg p (List.mem_of_mem_filter hp) hpre

theorem mem_setItem (s : Store) (k : String) (v : StoredValue) :
    ∀ p ∈ setItem s k v, p = (k, v) ∨ p ∈ s := by
  induction s with
  | nil => simp [setItem]
  | cons q t ih =>
    by_cases hk : q.1 = k
    · intro p hp
      simp only [setItem, if_pos hk, List.mem_cons] at hp
      rcases hp with h | h
      · exact .inl h
      · exact .inr (List.mem_cons_of_mem q h)
    · intro p hp
      simp only [setItem, if_neg hk, List.mem_cons] at hp
      rcases hp with h | h
      · exact .inr (by simp [h])
      · rcases ih p h with h' | h'
        · exact .inl h'
        · exact .inr (List.mem_cons_of_mem q h')

theorem goodStore_setItem {s : Store} (hg : GoodStore s) (k : String) (e : CacheEntry) :
    GoodStore (setItem s k (.good e)) := by
  intro p hp hpre
  rcases mem_setItem s k (.good e) p hp with h | h
  · subst h; simp [parse]
  · exact hg p h hpre

/-- Key-uniqueness makes pairs with equal keys identical. -/
theorem NodupKeys.eq_of_fst_eq {s : Store} (hn : NodupKeys s) :
    ∀ p ∈ s, ∀ q ∈ s, p.1 = q.1 → p = q := by
  induction s with
  | nil => simp
  | cons a t ih =>
    have ha : a.1 ∉ t.map Prod.fst := (List.nodup_cons.mp hn).1
    have ht : NodupKeys t := (List.nodup_cons.mp hn).2
    intro p hp q hq hpq
    rcases List.mem_cons.mp hp with hp | hp <;> rcases List.mem_cons.mp hq with hq | hq
    · rw [hp, hq]
    · exfalso
      apply ha
      rw [hp] at hpq
      rw [hpq]
      exact List.mem_map_of_mem Prod.fst hq
    · exfalso
      apply ha
      rw [hq] at hpq
      rw [← hpq]
      exact List.mem_map_of_mem Prod.fst hp
    · exact ih ht p hp q hq hpq

/-! ### Enumeration lemmas -/

theorem entrySel_key {p : String × StoredValue} {q : String × CacheEntry}
    (h : entrySel p = some q) : q.1 = p.1 := by
  unfold entrySel at h
  by_cases hpre : jsStartsWith p.1 CACHE_PREF
  · rw [if_pos hpre] at h
    cases hv : parse p.2 with
    | none => rw [hv] at h; simp at h
    | some e => rw [hv] at h; simp at h; rw [← h]
  · rw [if_neg hpre] at h; simp at h

theorem entriesOf_removeItem (s : Store) (k : String) :
    entriesOf (removeItem s k) = (entriesOf s).filter (fun q => q.1 ≠ k) := by
  induction s with
  | nil => rfl
  | cons p t ih =>
    by_cases hk : p.1 = k
    · cases hsel : entrySel p with
      | none => simp [entriesOf, removeItem, List.filter_cons, hk, List.filterMap_cons, hsel,
          entriesOf] at ih ⊢; exact ih
      | some q =>
        have hq : q.1 = p.1 := entrySel_key hsel
        simp [entriesOf, removeItem, List.filter_cons, hk, List.filterMap_cons, hsel, hq,
          entriesOf] at ih ⊢
        exact ih
    · cases hsel : entrySel p with
      | none => simp [entriesOf, removeItem, List.filter_cons, hk, List.filterMap_cons, hsel,
          entriesOf] at ih ⊢; exact ih
      | some q =>
        have hq : q.1 = p.1 := entrySel_key hsel
        simp [entriesOf, removeItem, List.filter_cons, hk, List.filterMap_cons, hsel, hq,
          entriesOf] at ih ⊢
        exact ih

theorem length_entriesOf_setItem_le (s : Store) (k : String) (v : StoredValue) :
    (entriesOf (setItem s k v)).length ≤ (entriesOf s).length + 1 := by
  induction s with
  | nil =>
    cases hsel : entrySel (k, v) <;>
      simp [setItem, entriesOf, List.filterMap_cons, hsel]
  | cons p t ih =>
    by_cases hk : p.1 = k
    · cases hsel : entrySel (k, v) <;> cases hsel' : entrySel p <;>
        (simp [setItem, hk, entriesOf, List.filterMap_cons, hsel, hsel']; try omega)
    · cases hsel' : entrySel p <;>
        simpa [setItem, hk, entriesOf, List.filterMap_cons, hsel'] using ih

theorem keys_entriesOf_sublist (s : Store) :
    ((entriesOf s).map Prod.fst).Sublist (s.map Prod.fst) := by
  induction s with
  | nil => simp [entriesOf]
  | cons p t ih =>
    cases hsel : entrySel p with
    | none =>
      simp only [entriesOf, List.filterMap_cons, hsel, List.map_cons]
      exact ih.cons p.1
    | some q =>
      have hq : q.1 = p.1 := entrySel_key hsel
      simp only [entriesOf, List.filterMap_cons, hsel, List.map_cons, hq]
      exact ih.cons₂ p.1

theorem nodupKeys_entriesOf {s : Store} (hn : NodupKeys s) :
    ((entriesOf s).map Prod.fst).Nodup :=
  (keys_entriesOf_sublist s).nodup hn

/-- The fuel is irrelevant as soon as it covers the remaining iterations:
the index grows by one per step and the storage never grows, so
`s.length - i` steps always suffice — in particular `getAllEntries`'s
fuel `s.length` is never exhausted and the function is exactly the
source's unbounded loop. -/
theorem getAllEntriesAux_fuel :
    ∀ (f1 f2 : Nat) (s : Store) (i : Nat), s.length - i ≤ f1 → s.length - i ≤ f2 →
      ThumbnailCache.getAllEntriesAux f1 s i = ThumbnailCache.getAllEntriesAux f2 s i
  | 0, f2, s, i, h1, _ => by
    have hi : ¬ i < s.length := by omega
    cases f2 with
    | zero => rfl
    | succ g => simp [ThumbnailCache.getAllEntriesAux, dif_neg hi]
  | f1 + 1, 0, s, i, _, h2 => by
    have hi : ¬ i < s.length := by omega
    simp [ThumbnailCache.getAllEntriesAux, dif_neg hi]
  | f1 + 1, f2 + 1, s, i, h1, h2 => by
    by_cases h : i < s.length
    · have hrm : (removeItem s s[i].1).length < s.length := by
        refine List.length_filter_lt_length_iff_exists.mpr ?_
        exact ⟨s[i], List.getElem_mem h, by simp⟩
      simp only [ThumbnailCache.getAllEntriesAux, dif_pos h]
      by_cases hpre : jsStartsWith s[i].1 CACHE_PREF
      · rw [if_pos hpre, if_pos hpre]
        cases hv : parse s[i].2 with
        | some e =>
          rw [getAllEntriesAux_fuel f1 f2 s (i + 1) (by omega) (by omega)]
        | none =>
          rw [getAllEntriesAux_fuel f1 f2 (removeItem s s[i].1) (i + 1)
            (by omega) (by omega)]
      · rw [if_neg hpre, if_neg hpre,
          getAllEntriesAux_fuel f1 f2 s (i + 1) (by omega) (by omega)]
    · simp [ThumbnailCache.getAllEntriesAux, dif_neg h]

/-- On a store whose namespaced values all parse, the enumeration loop
mutates nothing and collects the namespaced entries from index `i` on. -/
theorem getAllEntriesAux_good :
    ∀ (fuel : Nat) (s : Store) (i : Nat), GoodStore s → s.length - i ≤ fuel →
      ThumbnailCache.getAllEntriesAux fuel s i = (s, (s.drop i).filterMap entrySel)
  | 0, s, i, _, hfuel => by
    have : s.length ≤ i := by omega
    simp [ThumbnailCache.getAllEntriesAux, List.drop_eq_nil_of_le this]
  | fuel + 1, s, i, hg, hfuel => by
    by_cases h : i < s.length
    · have hdrop : s.drop i = s[i] :: s.drop (i + 1) := List.drop_eq_getElem_cons h
      have hmem : s[i] ∈ s := List.getElem_mem h
      have ih := getAllEntriesAux_good fuel s (i + 1) hg (by omega)
      by_cases hpre : jsStartsWith s[i].1 CACHE_PREF
      · have hsome : (parse s[i].2).isSome = true := hg _ hmem hpre
        cases hv : parse s[i].2 with
        | none => rw [hv] at hsome; simp at hsome
        | some e =>
          simp only [ThumbnailCache.getAllEntriesAux, dif_pos h, hpre, if_true, hv, ih,
            hdrop, List.filterMap_cons]
          simp [entrySel, hpre, hv]
      · simp only [ThumbnailCache.getAllEntriesAux, dif_pos h, hpre]
        simp only [Bool.false_eq_true, if_false, ih, hdrop, List.filterMap_cons]
        simp [entrySel, hpre]
    · simp [ThumbnailCache.getAllEntriesAux, dif_neg h,
        List.drop_eq_nil_of_le (by omega : s.length ≤ i)]

theorem getAllEntries_good {s : Store} (hg : GoodStore s) :
    ThumbnailCache.getAllEntries s = (s, entriesOf s) := by
  have := getAllEntriesAux_good s.length s 0 hg (by omega)
  simpa [ThumbnailCache.getAllEntries, entriesOf] using this

/-! ### Counting under removals -/

theorem length_filter_ne_key {α : Type} (k : String) :
    ∀ l : List (String × α), (l.map Prod.fst).Nodup →
      (l.filter (fun q => q.1 ≠ k)).length =
        l.length - (if k ∈ l.map Prod.fst then 1 else 0)
  | [], _ => by simp
  | p :: t, hn => by
    have ht : (t.map Prod.fst).Nodup := (List.nodup_cons.mp hn).2
    have ihl := length_filter_ne_key k t ht
    rw [List.filter_cons]
    by_cases hk : p.1 = k
    · have hnot : k ∉ t.map Prod.fst := by
        rw [← hk]; exact (List.nodup_cons.mp hn).1
      have hc : (decide (p.1 ≠ k)) = false := by simp [hk]
      rw [hc]
      have hmm : k ∈ (p :: t).map Prod.fst := by simp [hk]
      rw [if_pos hmm, if_neg (by simp : ¬ (false = true))]
      rw [ihl, if_neg hnot]
      have hfle : (t.filter (fun q => q.1 ≠ k)).length ≤ t.length :=
        List.length_filter_le _ t
      simp
    · have hkp : ¬ k = p.1 := fun h => hk h.symm
      have hc : (decide (p.1 ≠ k)) = true := by simp [hk]
      rw [hc, if_pos rfl]
      by_cases hm : k ∈ t.map Prod.fst
      · have h1 : 1 ≤ t.length := by
          rcases List.mem_map.mp hm with ⟨q, hq, _⟩
          exact List.length_pos.mpr (List.ne_nil_of_mem hq)
        have hmm : k ∈ (p :: t).map Prod.fst := by
          simp only [List.map_cons, List.mem_cons]
          exact .inr hm
        rw [if_pos hmm]
        simp only [List.length_cons, ihl, if_pos hm]
        omega
      · have hmm : k ∉ (p :: t).map Prod.fst := by
          simp only [List.map_cons, List.mem_cons]
          rintro (h | h)
          · exact hkp h
          · exact hm h
        rw [if_neg hmm]
        simp only [List.length_cons, ihl, if_neg hm]
        omega

theorem cacheCount_removeItem {s : Store} (hn : NodupKeys s) (k : String) :
    cacheCount (removeItem s k) =
      cacheCount s - (if k ∈ (entriesOf s).map Prod.fst then 1 else 0) := by
  unfold cacheCount
  rw [entriesOf_removeItem]
  exact length_filter_ne_key k (entriesOf s) (nodupKeys_entriesOf hn)

theorem mem_keys_entriesOf_removeItem {s : Store} {k' k : String}
    (hm : k' ∈ (entriesOf s).map Prod.fst) (hne : k' ≠ k) :
    k' ∈ (entriesOf (removeItem s k)).map Prod.fst := by
  rw [entriesOf_removeItem]
  rcases List.mem_map.mp hm with ⟨q, hq, hqk⟩
  refine List.mem_map.mpr ⟨q, ?_, hqk⟩
  refine List.mem_filter.mpr ⟨hq, ?_⟩
  simp [hqk, hne]

theorem cacheCount_foldl_removeItem :
    ∀ (K : List String) (s : Store), NodupKeys s → K.Nodup →
      (∀ k ∈ K, k ∈ (entriesOf s).map Prod.fst) →
      cacheCount (K.foldl removeItem s) = cacheCount s - K.length
  | [], s, _, _, _ => by simp
  | k :: K, s, hn, hK, hmem => by
    have hk : k ∈ (entriesOf s).map Prod.fst := hmem k (List.mem_cons_self k K)
    have hK' : K.Nodup := (List.nodup_cons.mp hK).2
    have hkK : k ∉ K := (List.nodup_cons.mp hK).1
    have hmem' : ∀ k' ∈ K, k' ∈ (entriesOf (removeItem s k)).map Prod.fst := by
      intro k' hk'
      exact mem_keys_entriesOf_removeItem (hmem k' (List.mem_cons_of_mem k hk'))
        (fun h => hkK (h ▸ hk'))
    have ihl := cacheCount_foldl_removeItem K (removeItem s k) (nodupKeys_removeItem hn k) hK' hmem'
    have hcnt := cacheCount_removeItem hn k
    have hpos : 1 ≤ cacheCount s := by
      rcases List.mem_map.mp hk with ⟨q, hq, _⟩
      exact List.length_pos.mpr (List.ne_nil_of_mem hq)
    simp only [List.foldl_cons, ihl, hcnt, if_pos hk, List.length_cons]
    omega

theorem goodStore_foldl_removeItem :
    ∀ (K : List String) {s : Store}, GoodStore s → GoodStore (K.foldl removeItem s)
  | [], _, hg => hg
  | k :: K, s, hg => by
    simpa using goodStore_foldl_removeItem K (goodStore_removeItem hg k)

theorem nodupKeys_foldl_removeItem :
    ∀ (K : List String) {s : Store}, NodupKeys s → NodupKeys (K.foldl removeItem s)
  | [], _, hn => hn
  | k :: K, s, hn => by
    simpa using nodupKeys_foldl_removeItem K (nodupKeys_removeItem hn k)

/-! ### The eviction sort -/

instance : IsTotal (String × CacheEntry) ThumbnailCache.tsLe :=
  ⟨fun a b => Nat.le_total a.2.timestamp b.2.timestamp⟩

instance : IsTrans (String × CacheEntry) ThumbnailCache.tsLe :=
  ⟨fun _ _ _ => Nat.le_trans⟩

theorem perm_sortEntries (l : List (String × CacheEntry)) :
    (ThumbnailCache.sortEntries l).Perm l :=
  List.perm_insertionSort ThumbnailCache.tsLe l

theorem sorted_sortEntries (l : List (String × CacheEntry)) :
    List.Sorted ThumbnailCache.tsLe (ThumbnailCache.sortEntries l) :=
  List.sorted_insertionSort ThumbnailCache.tsLe l

theorem length_sortEntries (l : List (String × CacheEntry)) :
    (ThumbnailCache.sortEntries l).length = l.length :=
  (perm_sortEntries l).length_eq

/-- The entries removed by an eviction pass are all at least as old as
every entry kept. -/
theorem sortEntries_take_drop (l : List (String × CacheEntry)) (n : Nat) :
    ∀ p ∈ (ThumbnailCache.sortEntries l).take n,
      ∀ q ∈ (ThumbnailCache.sortEntries l).drop n,
        p.2.timestamp ≤ q.2.timestamp := by
  have hs := sorted_sortEntries l
  rw [← List.take_append_drop n (ThumbnailCache.sortEntries l)] at hs
  exact fun p hp q hq => (List.pairwise_append.mp hs).2.2 p hp q hq

/-- Stability of the eviction sort: entries with equal timestamps stay in
enumeration (key) order. -/
theorem filter_ts_orderedInsert (a : String × CacheEntry) (t : Nat) :
    ∀ m : List (String × CacheEntry),
      (List.orderedInsert ThumbnailCache.tsLe a m).filter
          (fun q => q.2.timestamp == t) =
        if a.2.timestamp = t then
          a :: m.filter (fun q => q.2.timestamp == t)
        else
          m.filter (fun q => q.2.timestamp == t)
  | [] => by
    by_cases ht : a.2.timestamp = t <;> simp [List.filter_cons, ht]
  | b :: rest => by
    by_cases hle : ThumbnailCache.tsLe a b
    · by_cases ht : a.2.timestamp = t <;>
        simp [List.orderedInsert, hle, List.filter_cons, ht]
    · have hlt : b.2.timestamp < a.2.timestamp := by
        unfold ThumbnailCache.tsLe at hle
        omega
      have ihl := filter_ts_orderedInsert a t rest
      by_cases ht : a.2.timestamp = t
      · have hbt : ¬ b.2.timestamp = t := by omega
        simp [List.orderedInsert, hle, List.filter_cons, ht, hbt, ihl]
      · by_cases hbt : b.2.timestamp = t <;>
          simp [List.orderedInsert, hle, List.filter_cons, ht, hbt, ihl]

theorem filter_ts_sortEntries (t : Nat) :
    ∀ l : List (String × CacheEntry),
      (ThumbnailCache.sortEntries l).filter (fun q => q.2.timestamp == t) =
        l.filter (fun q => q.2.timestamp == t)
  | [] => rfl
  | a :: l => by
    have ihl := filter_ts_sortEntries t l
    unfold ThumbnailCache.sortEntries at ihl ⊢
    simp only [List.insertionSort]
    rw [filter_ts_orderedInsert a t]
    by_cases ht : a.2.timestamp = t <;> simp [ht, ihl, List.filter_cons]

/-! ### Cleanup characterization -/

theorem cleanup_good {s : Store} (hg : GoodStore s) (n : Nat) :
    ThumbnailCache.cleanup s n =
      ((ThumbnailCache.sortEntries (entriesOf s)).take n).foldl
        (fun st q => removeItem st q.1) s := by
  unfold ThumbnailCache.cleanup
  rw [getAllEntries_good hg]

theorem keys_take_sortEntries_nodup {s : Store} (hn : NodupKeys s) (n : Nat) :
    (((ThumbnailCache.sortEntries (entriesOf s)).take n).map Prod.fst).Nodup := by
  have hperm := (perm_sortEntries (entriesOf s)).map Prod.fst
  have hnodup : ((ThumbnailCache.sortEntries (entriesOf s)).map Prod.fst).Nodup :=
    hperm.nodup_iff.mpr (nodupKeys_entriesOf hn)
  exact ((List.take_sublist n _).map Prod.fst).nodup hnodup

theorem keys_take_sortEntries_mem {s : Store} (n : Nat) :
    ∀ k ∈ ((ThumbnailCache.sortEntries (entriesOf s)).take n).map Prod.fst,
      k ∈ (entriesOf s).map Prod.fst := by
  intro k hk
  rcases List.mem_map.mp hk with ⟨q, hq, hqk⟩
  have hq' : q ∈ ThumbnailCache.sortEntries (entriesOf s) :=
    List.mem_of_mem_take hq
  have hq'' : q ∈ entriesOf s := (perm_sortEntries (entriesOf s)).mem_iff.mp hq'
  exact List.mem_map.mpr ⟨q, hq'', hqk⟩

/-- `cleanup s n` removes exactly `min n (cacheCount s)` live entries. -/
theorem cacheCount_cleanup {s : Store} (hg : GoodStore s) (hn : NodupKeys s) (n : Nat) :
    cacheCount (ThumbnailCache.cleanup s n) = cacheCount s - min n (cacheCount s) := by
  rw [cleanup_good hg n]
  have hfold :
      ((ThumbnailCache.sortEntries (entriesOf s)).take n).foldl
          (fun st q => removeItem st q.1) s =
        (((ThumbnailCache.sortEntries (entriesOf s)).take n).map Prod.fst).foldl
          removeItem s := by
    rw [List.foldl_map]
  rw [hfold]
  have hlen : (((ThumbnailCache.sortEntries (entriesOf s)).take n).map Prod.fst).length
      = min n (cacheCount s) := by
    rw [List.length_map, List.length_take, length_sortEntries]
    rfl
  rw [cacheCount_foldl_removeItem _ s hn (keys_take_sortEntries_nodup hn n)
    (keys_take_sortEntries_mem n), hlen]

theorem foldl_removeItem_keys (l : List (String × CacheEntry)) (s : Store) :
    l.foldl (fun st q => removeItem st q.1) s = (l.map Prod.fst).foldl removeItem s := by
  rw [List.foldl_map]

theorem goodStore_cleanup {s : Store} (hg : GoodStore s) (n : Nat) :
    GoodStore (ThumbnailCache.cleanup s n) := by
  rw [cleanup_good hg n, foldl_removeItem_keys]
  exact goodStore_foldl_removeItem _ hg

theorem nodupKeys_cleanup {s : Store} (hg : GoodStore s) (hn : NodupKeys s) (n : Nat) :
    NodupKeys (ThumbnailCache.cleanup s n) := by
  rw [cleanup_good hg n, foldl_removeItem_keys]
  exact nodupKeys_foldl_removeItem _ hn

/-- `cleanupIfNeeded` on an all-parseable store: evict iff over a strict
threshold. -/
theorem cleanupIfNeeded_good {s : Store} (hg : GoodStore s) :
    ThumbnailCache.cleanupIfNeeded s =
      if MAX_CACHE_SIZE < cacheSize s ∨ MAX_CACHE_ITEMS < cacheCount s then
        ThumbnailCache.cleanup s
          (max (cacheCount s + 10 - MAX_CACHE_ITEMS) ((cacheCount s + 4) / 5))
      else s := by
  unfold ThumbnailCache.cleanupIfNeeded
  rw [getAllEntries_good hg]
  rfl

theorem goodStore_cleanupIfNeeded {s : Store} (hg : GoodStore s) :
    GoodStore (ThumbnailCache.cleanupIfNeeded s) := by
  rw [cleanupIfNeeded_good hg]
  by_cases h : MAX_CACHE_SIZE < cacheSize s ∨ MAX_CACHE_ITEMS < cacheCount s
  · rw [if_pos h]; exact goodStore_cleanup hg _
  · rw [if_neg h]; exact hg

theorem nodupKeys_cleanupIfNeeded {s : Store} (hg : GoodStore s) (hn : NodupKeys s) :
    NodupKeys (ThumbnailCache.cleanupIfNeeded s) := by
  rw [cleanupIfNeeded_good hg]
  by_cases h : MAX_CACHE_SIZE < cacheSize s ∨ MAX_CACHE_ITEMS < cacheCount s
  · rw [if_pos h]; exact nodupKeys_cleanup hg hn _
  · rw [if_neg h]; exact hn

/-- After the capacity check, at most `MAX_CACHE_ITEMS` live entries
remain — provided at most 101 were live before. -/
theorem cacheCount_cleanupIfNeeded_le {s : Store} (hg : GoodStore s) (hn : NodupKeys s)
    (hc : cacheCount s ≤ 101) :
    cacheCount (ThumbnailCache.cleanupIfNeeded s) ≤ 100 := by
  rw [cleanupIfNeeded_good hg]
  by_cases h : MAX_CACHE_SIZE < cacheSize s ∨ MAX_CACHE_ITEMS < cacheCount s
  · rw [if_pos h]
    rw [cacheCount_cleanup hg hn]
    have : MAX_CACHE_ITEMS = 100 := rfl
    omega
  · rw [if_neg h]
    push_neg at h
    have : MAX_CACHE_ITEMS = 100 := rfl
    omega

/-! ### Invariants across `set` -/

theorem cacheCount_setItem_le (s : Store) (k : String) (v : StoredValue) :
    cacheCount (setItem s k v) ≤ cacheCount s + 1 :=
  length_entriesOf_setItem_le s k v

theorem set_preserves (wfail : Store → String → StoredValue → Bool) (s : Store)
    (now : Nat) (id url : String) (hg : GoodStore s) (hn : NodupKeys s)
    (hc : cacheCount s ≤ 101) :
    GoodStore (ThumbnailCache.set wfail s now id url)
    ∧ NodupKeys (ThumbnailCache.set wfail s now id url)
    ∧ cacheCount (ThumbnailCache.set wfail s now id url) ≤ 101 := by
  have hg1 : GoodStore (ThumbnailCache.cleanupIfNeeded s) := goodStore_cleanupIfNeeded hg
  have hn1 : NodupKeys (ThumbnailCache.cleanupIfNeeded s) := nodupKeys_cleanupIfNeeded hg hn
  have hc1 : cacheCount (ThumbnailCache.cleanupIfNeeded s) ≤ 100 :=
    cacheCount_cleanupIfNeeded_le hg hn hc
  have hg2 : GoodStore (ThumbnailCache.cleanup (ThumbnailCache.cleanupIfNeeded s) 10) :=
    goodStore_cleanup hg1 10
  have hn2 : NodupKeys (ThumbnailCache.cleanup (ThumbnailCache.cleanupIfNeeded s) 10) :=
    nodupKeys_cleanup hg1 hn1 10
  have hc2 : cacheCount (ThumbnailCache.cleanup (ThumbnailCache.cleanupIfNeeded s) 10) ≤ 100 := by
    rw [cacheCount_cleanup hg1 hn1 10]
    omega
  unfold ThumbnailCache.set
  by_cases h1 : wfail (ThumbnailCache.cleanupIfNeeded s)
      (CACHE_PREF ++ id) (.good ⟨url, now, url.length⟩) = true
  · rw [if_pos h1]
    by_cases h2 : wfail (ThumbnailCache.cleanup (ThumbnailCache.cleanupIfNeeded s) 10)
        (CACHE_PREF ++ id) (.good ⟨url, now, url.length⟩) = true
    · rw [if_pos h2]
      exact ⟨hg2, hn2, by omega⟩
    · rw [if_neg h2]
      refine ⟨goodStore_setItem hg2 _ _, nodupKeys_setItem hn2 _ _, ?_⟩
      have := cacheCount_setItem_le (ThumbnailCache.cleanup (ThumbnailCache.cleanupIfNeeded s) 10)
        (CACHE_PREF ++ id) (.good ⟨url, now, url.length⟩)
      omega
  · rw [if_neg h1]
    refine ⟨goodStore_setItem hg1 _ _, nodupKeys_setItem hn1 _ _, ?_⟩
    have := cacheCount_setItem_le (ThumbnailCache.cleanupIfNeeded s)
      (CACHE_PREF ++ id) (.good ⟨url, now, url.length⟩)
    omega

theorem runSets_inv (wfail : Store → String → StoredValue → Bool) :
    ∀ (calls : List (String × String × Nat)) (s : Store),
      GoodStore s → NodupKeys s → cacheCount s ≤ 101 →
      GoodStore (runSets wfail s calls) ∧ NodupKeys (runSets wfail s calls)
      ∧ cacheCount (runSets wfail s calls) ≤ 101
  | [], _, hg, hn, hc => ⟨hg, hn, hc⟩
  | c :: cs, s, hg, hn, hc => by
    obtain ⟨hg', hn', hc'⟩ := set_preserves wfail s c.2.2 c.1 c.2.1 hg hn hc
    simpa [runSets] using runSets_inv wfail cs _ hg' hn' hc'

/-! ### The exception layer never lets an error escape -/

theorem tcatch_ok {α : Type} (a : α) (h : String → Except String α) :
    tcatch (.ok a) h = .ok a := rfl

theorem tcatch_error {α : Type} (e : String) (h : String → Except String α) :
    tcatch (.error e) h = h e := rfl

theorem getAllEntriesAuxE_ok :
    ∀ (fuel : Nat) (s : Store) (i : Nat),
      ThumbnailCache.getAllEntriesAuxE fuel s i =
        .ok (ThumbnailCache.getAllEntriesAux fuel s i)
  | 0, _, _ => rfl
  | fuel + 1, s, i => by
    unfold ThumbnailCache.getAllEntriesAuxE ThumbnailCache.getAllEntriesAux
    by_cases h : i < s.length
    · rw [dif_pos h, dif_pos h]
      by_cases hpre : jsStartsWith s[i].1 CACHE_PREF
      · rw [if_pos hpre, if_pos hpre]
        cases hv : s[i].2 with
        | good e =>
          simp only [parseE, parse]
          rw [getAllEntriesAuxE_ok fuel s (i + 1)]
          rfl
        | bad str =>
          simp only [parseE, parse]
          exact getAllEntriesAuxE_ok fuel (removeItem s s[i].1) (i + 1)
      · rw [if_neg hpre, if_neg hpre]
        exact getAllEntriesAuxE_ok fuel s (i + 1)
    · rw [dif_neg h, dif_neg h]

theorem getAllEntriesE_ok (s : Store) :
    ThumbnailCache.getAllEntriesE s = .ok (ThumbnailCache.getAllEntries s) :=
  getAllEntriesAuxE_ok s.length s 0

theorem getStatsE_ok (s : Store) :
    ThumbnailCache.getStatsE s = .ok (ThumbnailCache.getStats s) := by
  unfold ThumbnailCache.getStatsE ThumbnailCache.getStats
  rw [getAllEntriesE_ok]
  rfl

theorem cleanupE_ok (s : Store) (n : Nat) :
    ThumbnailCache.cleanupE s n = .ok (ThumbnailCache.cleanup s n) := by
  unfold ThumbnailCache.cleanupE ThumbnailCache.cleanup
  rw [getAllEntriesE_ok]
  rfl

theorem cleanupIfNeededE_ok (s : Store) :
    ThumbnailCache.cleanupIfNeededE s = .ok (ThumbnailCache.cleanupIfNeeded s) := by
  unfold ThumbnailCache.cleanupIfNeededE ThumbnailCache.cleanupIfNeeded
  rw [getAllEntriesE_ok]
  show (if MAX_CACHE_SIZE < _ ∨ MAX_CACHE_ITEMS < _ then _ else _) = _
  by_cases h : MAX_CACHE_SIZE <
        ((ThumbnailCache.getAllEntries s).2.map (fun q => q.2.size)).sum
      ∨ MAX_CACHE_ITEMS < (ThumbnailCache.getAllEntries s).2.length
  · rw [if_pos h, if_pos h, cleanupE_ok]
  · rw [if_neg h, if_neg h]

theorem setE_ok (wfail : Store → String → StoredValue → Bool) (s : Store) (now : Nat)
    (id url : String) :
    ThumbnailCache.setE wfail s now id url = .ok (ThumbnailCache.set wfail s now id url) := by
  unfold ThumbnailCache.setE ThumbnailCache.set
  rw [cleanupIfNeededE_ok]
  show tcatch (setItemE _ _ _ _) _ = _
  unfold setItemE
  by_cases h1 : wfail (ThumbnailCache.cleanupIfNeeded s)
      (CACHE_PREF ++ id) (.good ⟨url, now, url.length⟩) = true
  · rw [if_pos h1, if_pos h1, tcatch_error, cleanupE_ok]
    show tcatch (setItemE _ _ _ _) _ = _
    unfold setItemE
    by_cases h2 : wfail (ThumbnailCache.cleanup (ThumbnailCache.cleanupIfNeeded s) 10)
        (CACHE_PREF ++ id) (.good ⟨url, now, url.length⟩) = true
    · rw [if_pos h2, if_pos h2, tcatch_error]
    · rw [if_neg h2, if_neg h2, tcatch_ok]
  · rw [if_neg h1, if_neg h1, tcatch_ok]

theorem getE_ok (s : Store) (now : Nat) (id : String) :
    ThumbnailCache.getE s now id = .ok (ThumbnailCache.get s now id) := by
  unfold ThumbnailCache.getE ThumbnailCache.get
  cases hit : getItem s (CACHE_PREF ++ id) with
  | none => simp [hit, tcatch]
  | some v =>
    cases v with
    | good e =>
      by_cases hage : MAX_AGE_MS < now - e.timestamp
      · simp [hit, parseE, parse, hage, tcatch, Except.bind, bind]
      · simp [hit, parseE, parse, hage, tcatch, Except.bind, bind]
    | bad str => simp [hit, parseE, parse, tcatch, Except.bind, bind]

theorem removeE_ok (s : Store) (id : String) :
    ThumbnailCache.removeE s id = .ok (ThumbnailCache.remove s id) := rfl

theorem clearE_ok (s : Store) :
    ThumbnailCache.clearE s = .ok (ThumbnailCache.clear s) := by
  unfold ThumbnailCache.clearE ThumbnailCache.clear
  rw [getAllEntriesE_ok]
  rfl

theorem hasE_ok (s : Store) (now : Nat) (id : String) :
    ThumbnailCache.hasE s now id = .ok (ThumbnailCache.has s now id) := by
  unfold ThumbnailCache.hasE ThumbnailCache.has
  rw [getE_ok]
  rfl

/-! ### What enumeration removes and returns on arbitrary stores -/

theorem getAllEntriesAux_sublist_bad :
    ∀ (fuel : Nat) (s : Store) (i : Nat), NodupKeys s →
      (ThumbnailCache.getAllEntriesAux fuel s i).1.Sublist s
      ∧ (∀ p ∈ s, p ∉ (ThumbnailCache.getAllEntriesAux fuel s i).1 →
          jsStartsWith p.1 CACHE_PREF = true ∧ parse p.2 = none)
      ∧ (∀ q ∈ (ThumbnailCache.getAllEntriesAux fuel s i).2,
          (q.1, StoredValue.good q.2) ∈ s ∧ jsStartsWith q.1 CACHE_PREF = true)
  | 0, s, i, _ => by
    refine ⟨List.Sublist.refl s, fun p hp hnp => absurd hp hnp, ?_⟩
    intro q hq
    simp [ThumbnailCache.getAllEntriesAux] at hq
  | fuel + 1, s, i, hn => by
    by_cases h : i < s.length
    · have hmem : s[i] ∈ s := List.getElem_mem h
      by_cases hpre : jsStartsWith s[i].1 CACHE_PREF
      · cases hv : parse s[i].2 with
        | some e =>
          have ih := getAllEntriesAux_sublist_bad fuel s (i + 1) hn
          have hres : ThumbnailCache.getAllEntriesAux (fuel + 1) s i =
              ((ThumbnailCache.getAllEntriesAux fuel s (i + 1)).1,
               (s[i].1, e) :: (ThumbnailCache.getAllEntriesAux fuel s (i + 1)).2) := by
            simp [ThumbnailCache.getAllEntriesAux, dif_pos h, hpre, hv]
          rw [hres]
          refine ⟨ih.1, ih.2.1, ?_⟩
          intro q hq
          rcases List.mem_cons.mp hq with hq | hq
          · subst hq
            have hgood : s[i].2 = StoredValue.good e := parse_eq_some_iff.mp hv
            refine ⟨?_, hpre⟩
            have hpair : (s[i].1, StoredValue.good e) = s[i] := by
              rw [← hgood]
            rw [hpair]
            exact hmem
          · exact ih.2.2 q hq
        | none =>
          have hn' : NodupKeys (removeItem s s[i].1) := nodupKeys_removeItem hn _
          have ih := getAllEntriesAux_sublist_bad fuel (removeItem s s[i].1) (i + 1) hn'
          have hres : ThumbnailCache.getAllEntriesAux (fuel + 1) s i =
              ThumbnailCache.getAllEntriesAux fuel (removeItem s s[i].1) (i + 1) := by
            simp [ThumbnailCache.getAllEntriesAux, dif_pos h, hpre, hv]
          rw [hres]
          refine ⟨ih.1.trans (List.filter_sublist s), ?_, ?_⟩
          · intro p hp hnp
            by_cases hp' : p ∈ removeItem s s[i].1
            · exact ih.2.1 p hp' hnp
            · have hkey : p.1 = s[i].1 := by
                by_contra hne
                exact hp' (List.mem_filter.mpr ⟨hp, by simp [hne]⟩)
              have hpq : p = s[i] := hn.eq_of_fst_eq p hp s[i] hmem hkey
              rw [hpq]
              exact ⟨hpre, hv⟩
          · intro q hq
            obtain ⟨hmem', hpre'⟩ := ih.2.2 q hq
            exact ⟨List.mem_of_mem_filter hmem', hpre'⟩
      · have ih := getAllEntriesAux_sublist_bad fuel s (i + 1) hn
        have hres : ThumbnailCache.getAllEntriesAux (fuel + 1) s i =
            ThumbnailCache.getAllEntriesAux fuel s (i + 1) := by
          simp [ThumbnailCache.getAllEntriesAux, dif_pos h, hpre]
        rw [hres]
        exact ih
    · have hres : ThumbnailCache.getAllEntriesAux (fuel + 1) s i = (s, []) := by
        simp [ThumbnailCache.getAllEntriesAux, dif_neg h]
      rw [hres]
      exact ⟨List.Sublist.refl s, fun p hp hnp => absurd hp hnp, by simp⟩

/-! ### Concrete store families, symbolically -/

theorem unaryId_injective : Function.Injective unaryId := by
  intro a b h
  have h2 := congrArg (fun s : String => s.data.length) h
  simpa [unaryId] using h2

theorem string_append_left_cancel {a b c : String} (h : a ++ b = a ++ c) : b = c := by
  have hd : a.data ++ b.data = a.data ++ c.data := congrArg String.data h
  have h2 : b.data = c.data := List.append_cancel_left hd
  exact congrArg String.mk h2

theorem key_injective : Function.Injective (fun i => CACHE_PREF ++ unaryId i) := by
  intro a b h
  exact unaryId_injective (string_append_left_cancel h)

theorem entriesOf_map_range (f : Nat → String) (g : Nat → CacheEntry) :
    ∀ l : List Nat,
      entriesOf (l.map (fun i => (CACHE_PREF ++ f i, StoredValue.good (g i))))
        = l.map (fun i => (CACHE_PREF ++ f i, g i))
  | [] => rfl
  | i :: l => by
    have hpre := jsStartsWith_pref_append (f i)
    have ih := entriesOf_map_range f g l
    simp only [entriesOf] at ih ⊢
    simp [List.filterMap_cons, entrySel, hpre, parse, ih]

theorem entriesOf_mkStore (n : Nat) (u : String) (sz : Nat) :
    entriesOf (mkStore n u sz)
      = (List.range n).map (fun i => (CACHE_PREF ++ unaryId i, (⟨u, i, sz⟩ : CacheEntry))) :=
  entriesOf_map_range unaryId (fun i => ⟨u, i, sz⟩) (List.range n)

theorem cacheCount_mkStore (n : Nat) (u : String) (sz : Nat) :
    cacheCount (mkStore n u sz) = n := by
  unfold cacheCount
  rw [entriesOf_mkStore]
  simp

theorem sum_map_const_size : ∀ (l : List (String × CacheEntry)) (sz : Nat),
    (∀ q ∈ l, q.2.size = sz) → (l.map (fun q => q.2.size)).sum = l.length * sz
  | [], _, _ => by simp
  | q :: l, sz, h => by
    have hq : q.2.size = sz := h q (List.mem_cons_self q l)
    have ihl := sum_map_const_size l sz (fun p hp => h p (List.mem_cons_of_mem q hp))
    simp only [List.map_cons, List.sum_cons, ihl, hq, List.length_cons]
    ring

theorem cacheSize_mkStore (n : Nat) (u : String) (sz : Nat) :
    cacheSize (mkStore n u sz) = n * sz := by
  unfold cacheSize
  rw [entriesOf_mkStore, sum_map_const_size _ sz]
  · simp
  · intro q hq
    rcases List.mem_map.mp hq with ⟨i, _, hqi⟩
    rw [← hqi]

theorem goodStore_mkStore (n : Nat) (u : String) (sz : Nat) : GoodStore (mkStore n u sz) := by
  intro p hp _
  rcases List.mem_map.mp hp with ⟨i, _, hpi⟩
  rw [← hpi]
  simp [parse]

theorem keys_mkStore (n : Nat) (u : String) (sz : Nat) :
    (mkStore n u sz).map Prod.fst = (List.range n).map (fun i => CACHE_PREF ++ unaryId i) := by
  unfold mkStore
  rw [List.map_map]
  rfl

theorem nodupKeys_mkStore (n : Nat) (u : String) (sz : Nat) : NodupKeys (mkStore n u sz) := by
  unfold NodupKeys
  rw [keys_mkStore]
  exact (List.nodup_range n).map key_injective

theorem fresh_key_mkStore {n m : Nat} (h : n ≤ m) (u : String) (sz : Nat) :
    (CACHE_PREF ++ unaryId m) ∉ (mkStore n u sz).map Prod.fst := by
  rw [keys_mkStore]
  intro hmem
  rcases List.mem_map.mp hmem with ⟨i, hi, hik⟩
  have : i = m := key_injective hik
  rw [this] at hi
  exact absurd (List.mem_range.mp hi) (by omega)

theorem setItem_append : ∀ (s : Store) (k : String) (v : StoredValue),
    k ∉ s.map Prod.fst → setItem s k v = s ++ [(k, v)]
  | [], _, _, _ => rfl
  | p :: t, k, v, hk => by
    have hne : p.1 ≠ k := by
      intro h
      exact hk (by simp [h])
    have ht : k ∉ t.map Prod.fst := fun h => hk (by simp [h])
    simp only [setItem, if_neg hne, List.cons_append]
    rw [setItem_append t k v ht]

theorem cleanupIfNeeded_no_trigger {s : Store} (hg : GoodStore s)
    (h1 : cacheSize s ≤ MAX_CACHE_SIZE) (h2 : cacheCount s ≤ MAX_CACHE_ITEMS) :
    ThumbnailCache.cleanupIfNeeded s = s := by
  rw [cleanupIfNeeded_good hg, if_neg]
  push_neg
  omega

theorem setOk_no_evict {s : Store} (hg : GoodStore s)
    (h1 : cacheSize s ≤ MAX_CACHE_SIZE) (h2 : cacheCount s ≤ MAX_CACHE_ITEMS)
    (now : Nat) (id url : String) :
    ThumbnailCache.setOk s now id url
      = setItem s (CACHE_PREF ++ id) (.good ⟨url, now, url.length⟩) := by
  show setItem (ThumbnailCache.cleanupIfNeeded s) _ _ = _
  rw [cleanupIfNeeded_no_trigger hg h1 h2]

theorem cacheCount_setItem_fresh {s : Store} {k : String} (hk : k ∉ s.map Prod.fst)
    (hpre : jsStartsWith k CACHE_PREF = true) (e : CacheEntry) :
    cacheCount (setItem s k (.good e)) = cacheCount s + 1 := by
  rw [setItem_append s k _ hk]
  unfold cacheCount entriesOf
  rw [List.filterMap_append]
  simp [entrySel, hpre, parse]

theorem runSets_append (wfail : Store → String → StoredValue → Bool) :
    ∀ (l1 l2 : List (String × String × Nat)) (s : Store),
      runSets wfail s (l1 ++ l2) = runSets wfail (runSets wfail s l1) l2
  | [], _, _ => rfl
  | c :: l1, l2, s => by
    simp only [List.cons_append, runSets]
    exact runSets_append wfail l1 l2 _

theorem keys_foldl_removeItem_sublist :
    ∀ (K : List String) (s : Store),
      ((K.foldl removeItem s).map Prod.fst).Sublist (s.map Prod.fst)
  | [], s => List.Sublist.refl _
  | k :: K, s => by
    simp only [List.foldl_cons]
    exact (keys_foldl_removeItem_sublist K (removeItem s k)).trans
      (keys_removeItem_sublist s k)

/-- Running the first `n` of the 101 distinct-id `set` calls from the
empty store builds exactly the `n`-entry store (no eviction ever fires:
the pre-state of each call has at most 100 entries and at most 101 bytes
of payload). -/
theorem buildStore : ∀ n : Nat, n ≤ 101 →
    runSets ThumbnailCache.noFail []
        ((List.range n).map (fun i => (unaryId i, "d", i)))
      = mkStore n "d" 1
  | 0, _ => rfl
  | n + 1, h => by
    rw [List.range_succ, List.map_append, runSets_append, buildStore n (by omega)]
    show ThumbnailCache.setOk (mkStore n "d" 1) n (unaryId n) "d" = mkStore (n + 1) "d" 1
    rw [setOk_no_evict (goodStore_mkStore n "d" 1)
        (by rw [cacheSize_mkStore]; show n * 1 ≤ 52428800; omega)
        (by rw [cacheCount_mkStore]; show n ≤ 100; omega),
      setItem_append _ _ _ (fresh_key_mkStore (Nat.le_refl n) "d" 1)]
    unfold mkStore
    rw [List.range_succ, List.map_append]
    rfl

/-! ### Claim theorems -/

theorem setOk_eq (s : Store) (now : Nat) (id url : String) :
    ThumbnailCache.setOk s now id url =
      setItem (ThumbnailCache.cleanupIfNeeded s) (CACHE_PREF ++ id)
        (.good ⟨url, now, url.length⟩) := rfl

/-- The total recorded size of a one-entry cache, independent of the
payload (so the kernel never evaluates a 50 MiB string). -/
theorem cacheSize_single (u : String) (T n : Nat) (id : String) :
    cacheSize [(CACHE_PREF ++ id, StoredValue.good ⟨u, T, n⟩)] = n := by
  have hpre := jsStartsWith_pref_append id
  simp [cacheSize, entriesOf, entrySel, hpre, parse]

/-- C1, counterexample.  The spec's capacity invariant fails on the code in
both halves: (a) a single `set` of a payload of 50 MiB + 1 characters from
the empty cache leaves a total stored size strictly above `MAX_CACHE_SIZE`
(the pre-write check sees an empty cache and the inserted entry is never
counted); (b) 101 `set` calls with distinct ids leave 101 stored entries
(the check fires only strictly above 100, and only before the insert). -/
theorem cache_capacity_counterexample :
    MAX_CACHE_SIZE < cacheSize (ThumbnailCache.setOk [] 0 "x" bigStr)
    ∧ cacheCount (runSets ThumbnailCache.noFail [] calls101) = 101 := by
  constructor
  · have hset : ThumbnailCache.setOk [] 0 "x" bigStr
        = [(CACHE_PREF ++ "x", .good ⟨bigStr, 0, bigStr.length⟩)] := rfl
    have hlen : bigStr.length = 52428801 := by
      show (List.replicate 52428801 'a').length = 52428801
      exact List.length_replicate _ _
    rw [hset, cacheSize_single, hlen]
    decide
  · show cacheCount (runSets ThumbnailCache.noFail []
        ((List.range 101).map (fun i => (unaryId i, "d", i)))) = 101
    rw [buildStore 101 (Nat.le_refl 101), cacheCount_mkStore]

/-- C1, amended: for every sequence of `set` calls starting from the empty
cache (under any write-failure behaviour of the storage), after each call
the number of stored entries is at most 101 — not 100: the capacity check
runs before the insert and triggers only strictly above the caps, so the
count transiently reaches `MAX_CACHE_ITEMS + 1`, and no bound at all holds
for the total stored size, which a single oversized payload exceeds. -/
theorem cache_capacity_count_le_101 (wfail : Store → String → StoredValue → Bool)
    (calls : List (String × String × Nat)) :
    cacheCount (runSets wfail [] calls) ≤ 101 :=
  (runSets_inv wfail calls [] (by decide) (by decide) (by decide)).2.2

/-- C2, counterexample.  An entry written at `T = 0` read at exactly
`T + 7` days is still returned: the source uses the strict comparison
`Date.now() - entry.timestamp > maxAge`, so at `now = 604800000` the claim's
"absent at every read time at or after T + 7 days" fails. -/
theorem ttl_boundary_counterexample :
    ThumbnailCache.get [("thumbnail_x", .good ⟨"d", 0, 1⟩)] 604800000 "x"
      = ([("thumbnail_x", .good ⟨"d", 0, 1⟩)], some "d") := by decide

/-- C2, amended: an entry stored by `set` at time `T` is returned by `get`
at every read time `now ≤ T + 7d` (the boundary instant included), and at
every read time `now > T + 7d` it is absent and the key is removed from
storage. -/
theorem ttl_get_amended (s : Store) (T now : Nat) (id url : String) :
    (now ≤ T + MAX_AGE_MS →
      ThumbnailCache.get (ThumbnailCache.setOk s T id url) now id
        = (ThumbnailCache.setOk s T id url, some url))
    ∧ (T + MAX_AGE_MS < now →
      ThumbnailCache.get (ThumbnailCache.setOk s T id url) now id
        = (removeItem (ThumbnailCache.setOk s T id url) (CACHE_PREF ++ id), none)) := by
  have hget : getItem (ThumbnailCache.setOk s T id url) (CACHE_PREF ++ id)
      = some (.good ⟨url, T, url.length⟩) := by
    rw [setOk_eq]
    exact getItem_setItem_self _ _ _
  constructor
  · intro hle
    simp only [ThumbnailCache.get, hget, parse]
    rw [if_neg (by omega : ¬ MAX_AGE_MS < now - T)]
  · intro hgt
    simp only [ThumbnailCache.get, hget, parse]
    rw [if_pos (by omega : MAX_AGE_MS < now - T)]

/-- C2 witness: a concrete fresh read. -/
theorem ttl_get_amended_witness :
    ThumbnailCache.get (ThumbnailCache.setOk [] 0 "a" "d") 5 "a"
      = (ThumbnailCache.setOk [] 0 "a" "d", some "d") :=
  (ttl_get_amended [] 0 5 "a" "d").1 (by decide)

/-- C3: whenever the capacity check triggers an eviction, it removes
exactly `max (count + 10 - 100) ⌈count/5⌉` entries (`count` the number of
live entries at that moment); the removed entries are the oldest — every
removed timestamp is ≤ every kept timestamp — and ties between equal
timestamps are broken deterministically by enumeration (key) order, i.e.
the stable sort preserves the stored order of equal-timestamp entries. -/
theorem eviction_policy_exact (s : Store) (hg : GoodStore s) (hn : NodupKeys s)
    (ht : MAX_CACHE_SIZE < cacheSize s ∨ MAX_CACHE_ITEMS < cacheCount s) :
    ThumbnailCache.cleanupIfNeeded s
        = ((ThumbnailCache.sortEntries (entriesOf s)).take
            (max (cacheCount s + 10 - MAX_CACHE_ITEMS) ((cacheCount s + 4) / 5))).foldl
            (fun st q => removeItem st q.1) s
    ∧ cacheCount (ThumbnailCache.cleanupIfNeeded s)
        = cacheCount s - max (cacheCount s + 10 - MAX_CACHE_ITEMS) ((cacheCount s + 4) / 5)
    ∧ (∀ p ∈ (ThumbnailCache.sortEntries (entriesOf s)).take
          (max (cacheCount s + 10 - MAX_CACHE_ITEMS) ((cacheCount s + 4) / 5)),
        ∀ q ∈ (ThumbnailCache.sortEntries (entriesOf s)).drop
          (max (cacheCount s + 10 - MAX_CACHE_ITEMS) ((cacheCount s + 4) / 5)),
          p.2.timestamp ≤ q.2.timestamp)
    ∧ (∀ t : Nat,
        (ThumbnailCache.sortEntries (entriesOf s)).filter (fun q => q.2.timestamp == t)
          = (entriesOf s).filter (fun q => q.2.timestamp == t)) := by
  have hlen1 : 1 ≤ cacheCount s := by
    by_contra hc
    have h0 : cacheCount s = 0 := by omega
    have hnil : entriesOf s = [] := List.length_eq_zero.mp h0
    have hsize0 : cacheSize s = 0 := by simp [cacheSize, hnil]
    have hmi : MAX_CACHE_ITEMS = 100 := rfl
    rcases ht with ht | ht
    · rw [hsize0] at ht; omega
    · rw [h0] at ht; omega
  have hnle : max (cacheCount s + 10 - MAX_CACHE_ITEMS) ((cacheCount s + 4) / 5)
      ≤ cacheCount s := by
    have hmi : MAX_CACHE_ITEMS = 100 := rfl
    omega
  refine ⟨?_, ?_, sortEntries_take_drop _ _, fun t => filter_ts_sortEntries t (entriesOf s)⟩
  · rw [cleanupIfNeeded_good hg, if_pos ht, cleanup_good hg]
  · rw [cleanupIfNeeded_good hg, if_pos ht, cacheCount_cleanup hg hn, min_eq_left hnle]

/-- C3 witness: a two-entry store over the size cap evicts exactly one
(the older) entry. -/
theorem eviction_policy_exact_witness :
    cacheCount (ThumbnailCache.cleanupIfNeeded storeW) = 1 := by
  have h := eviction_policy_exact storeW (by decide) (by decide) (by decide)
  exact h.2.1.trans (by decide)

/-- C5: if the storage rejects the write inside `set` (first `setItem`
attempt throws), `set` runs one `cleanup(10)` pass — removing the
`min 10 count` oldest live entries — and retries the write exactly once;
if the retry also throws, the result is the cleaned store with the write
dropped, and in every case `set` returns normally (its exception-explicit
version returns `ok`). -/
theorem set_write_failure_retry (wfail : Store → String → StoredValue → Bool)
    (s : Store) (now : Nat) (id url : String) (hg : GoodStore s) (hn : NodupKeys s)
    (hfail : wfail (ThumbnailCache.cleanupIfNeeded s) (CACHE_PREF ++ id)
      (.good ⟨url, now, url.length⟩) = true) :
    ThumbnailCache.set wfail s now id url
        = (if wfail (ThumbnailCache.cleanup (ThumbnailCache.cleanupIfNeeded s) 10)
              (CACHE_PREF ++ id) (.good ⟨url, now, url.length⟩) = true
           then ThumbnailCache.cleanup (ThumbnailCache.cleanupIfNeeded s) 10
           else setItem (ThumbnailCache.cleanup (ThumbnailCache.cleanupIfNeeded s) 10)
              (CACHE_PREF ++ id) (.good ⟨url, now, url.length⟩))
    ∧ cacheCount (ThumbnailCache.cleanup (ThumbnailCache.cleanupIfNeeded s) 10)
        = cacheCount (ThumbnailCache.cleanupIfNeeded s)
          - min 10 (cacheCount (ThumbnailCache.cleanupIfNeeded s))
    ∧ (∀ p ∈ (ThumbnailCache.sortEntries
          (entriesOf (ThumbnailCache.cleanupIfNeeded s))).take 10,
        ∀ q ∈ (ThumbnailCache.sortEntries
          (entriesOf (ThumbnailCache.cleanupIfNeeded s))).drop 10,
          p.2.timestamp ≤ q.2.timestamp)
    ∧ ThumbnailCache.setE wfail s now id url
        = .ok (ThumbnailCache.set wfail s now id url) := by
  refine ⟨?_,
    cacheCount_cleanup (goodStore_cleanupIfNeeded hg) (nodupKeys_cleanupIfNeeded hg hn) 10,
    sortEntries_take_drop _ 10, setE_ok wfail s now id url⟩
  unfold ThumbnailCache.set
  rw [if_pos hfail]

/-- C5 witness: storage that always rejects writes; `set` from the empty
store returns the untouched empty store. -/
theorem set_write_failure_retry_witness :
    ThumbnailCache.set (fun _ _ _ => true) [] 0 "a" "d" = [] := by
  have h := set_write_failure_retry (fun _ _ _ => true) [] 0 "a" "d"
    (by decide) (by decide) rfl
  rw [h.1]
  decide

/-- C6, counterexample: `get` on an unparsable stored value returns absent
but does NOT delete the offending key — the `catch` in `get` only logs and
returns `null`, so the corrupt entry is still in storage afterwards,
contradicting the claimed deletion. -/
theorem corrupt_get_counterexample :
    getItem (ThumbnailCache.get [("thumbnail_x", .bad "junk")] 0 "x").1 "thumbnail_x"
      = some (.bad "junk")
    ∧ (ThumbnailCache.get [("thumbnail_x", .bad "junk")] 0 "x").2 = none := by decide

/-- C6, amended: `get` on an unparsable stored value returns absent and
leaves the storage unchanged (no deletion); it is only the enumeration
(`getAllEntries`, used by `getStats`, `cleanup`, `clear`) that deletes the
unparsable entries it encounters: enumeration only ever deletes
namespaced entries whose value fails to parse, and every entry it returns
(hence everything counted toward size or count) is a parseable namespaced
entry of the original store. -/
theorem corrupt_handling_amended (s : Store) (now : Nat) (id junk : String)
    (hn : NodupKeys s) :
    (getItem s (CACHE_PREF ++ id) = some (.bad junk) →
      ThumbnailCache.get s now id = (s, none))
    ∧ (ThumbnailCache.getAllEntries s).1.Sublist s
    ∧ (∀ p ∈ s, p ∉ (ThumbnailCache.getAllEntries s).1 →
        jsStartsWith p.1 CACHE_PREF = true ∧ parse p.2 = none)
    ∧ (∀ q ∈ (ThumbnailCache.getAllEntries s).2,
        (q.1, StoredValue.good q.2) ∈ s ∧ jsStartsWith q.1 CACHE_PREF = true)
    ∧ ThumbnailCache.getStats s
        = ((ThumbnailCache.getAllEntries s).1,
           ((ThumbnailCache.getAllEntries s).2.length,
            ((ThumbnailCache.getAllEntries s).2.map (fun q => q.2.size)).sum)) := by
  obtain ⟨h1, h2, h3⟩ := getAllEntriesAux_sublist_bad s.length s 0 hn
  refine ⟨?_, h1, h2, h3, rfl⟩
  intro hit
  simp only [ThumbnailCache.get, hit, parse]

/-- C6 witness: the corrupt singleton store, via the amended theorem. -/
theorem corrupt_handling_amended_witness :
    ThumbnailCache.get [("thumbnail_x", .bad "junk")] 7 "x"
      = ([("thumbnail_x", .bad "junk")], none) :=
  (corrupt_handling_amended [("thumbnail_x", .bad "junk")] 7 "x" "junk"
    (by decide)).1 (by decide)

theorem entriesOf_store101 :
    entriesOf (store100 ++ [(CACHE_PREF ++ unaryId 100, .good ⟨"x", 1000, 1⟩)])
      = entriesOf store100
        ++ [(CACHE_PREF ++ unaryId 100, (⟨"x", 1000, 1⟩ : CacheEntry))] := by
  unfold entriesOf
  rw [List.filterMap_append]
  simp [entrySel, jsStartsWith_pref_append, parse]

theorem goodStore_store101 :
    GoodStore (store100 ++ [(CACHE_PREF ++ unaryId 100, .good ⟨"x", 1000, 1⟩)]) := by
  intro p hp hpre
  rcases List.mem_append.mp hp with hp | hp
  · exact goodStore_mkStore 100 "" 524288 p hp hpre
  · have : p = (CACHE_PREF ++ unaryId 100, StoredValue.good ⟨"x", 1000, 1⟩) := by
      simpa using hp
    rw [this]
    simp [parse]

theorem nodupKeys_store101 :
    NodupKeys (store100 ++ [(CACHE_PREF ++ unaryId 100, .good ⟨"x", 1000, 1⟩)]) := by
  unfold NodupKeys
  rw [List.map_append]
  have hfresh := fresh_key_mkStore (Nat.le_refl 100) "" 524288
  refine List.Nodup.append (nodupKeys_mkStore 100 "" 524288) (List.nodup_singleton _) ?_
  intro a ha hb
  have hb' : a = CACHE_PREF ++ unaryId 100 := by simpa using hb
  rw [hb'] at ha
  exact hfresh ha

theorem cacheSize_store101 :
    cacheSize (store100 ++ [(CACHE_PREF ++ unaryId 100, .good ⟨"x", 1000, 1⟩)])
      = 52428801 := by
  unfold cacheSize
  rw [entriesOf_store101, List.map_append, List.sum_append]
  have h1 : ((entriesOf store100).map (fun q => q.2.size)).sum = 52428800 := by
    have h := cacheSize_mkStore 100 "" 524288
    simpa [cacheSize] using h
  rw [h1]
  norm_num

theorem cacheCount_store101 :
    cacheCount (store100 ++ [(CACHE_PREF ++ unaryId 100, .good ⟨"x", 1000, 1⟩)])
      = 101 := by
  unfold cacheCount
  rw [entriesOf_store101, List.length_append]
  have h : (entriesOf store100).length = 100 := cacheCount_mkStore 100 "" 524288
  rw [h]
  rfl

theorem setOk_store100_eq :
    ThumbnailCache.setOk store100 1000 (unaryId 100) "x"
      = store100 ++ [(CACHE_PREF ++ unaryId 100, .good ⟨"x", 1000, 1⟩)] := by
  unfold store100
  rw [setOk_no_evict (goodStore_mkStore 100 "" 524288)
      (by rw [cacheSize_mkStore]; norm_num [MAX_CACHE_SIZE])
      (by rw [cacheCount_mkStore]; norm_num [MAX_CACHE_ITEMS]),
    setItem_append _ _ _ (fresh_key_mkStore (Nat.le_refl 100) "" 524288)]
  rfl

/-- C7, counterexample: with 100 entries of 0.5 MiB recorded size each
(exactly 50 MiB, at the cap), inserting one more entry triggers NO
eviction at all — the thresholds are strict (`>`), so the claimed eviction
of at least 21 entries does not happen and the cache ends with 101
entries. -/
theorem at_cap_insert_counterexample :
    cacheCount (ThumbnailCache.setOk store100 1000 (unaryId 100) "x") = 101 := by
  rw [setOk_store100_eq]
  exact cacheCount_store101

/-- C7, amended: inserting into a cache holding 100 entries of 0.5 MiB
each (exactly at both caps) performs no eviction — the new entry is simply
appended, leaving 101 entries and 50 MiB + 1 byte — because eviction fires
only strictly above the caps; it is the NEXT `set` call that finds
size > 50 MiB and count > 100 and evicts
`max (101+10-100) ⌈101/5⌉ = 21` oldest entries before inserting, ending
at 81 entries. -/
theorem at_cap_insert_amended :
    ThumbnailCache.setOk store100 1000 (unaryId 100) "x"
      = store100 ++ [(CACHE_PREF ++ unaryId 100, StoredValue.good ⟨"x", 1000, 1⟩)]
    ∧ cacheSize (ThumbnailCache.setOk store100 1000 (unaryId 100) "x") = 52428801
    ∧ cacheCount (ThumbnailCache.setOk
        (ThumbnailCache.setOk store100 1000 (unaryId 100) "x")
        2000 (unaryId 101) "y") = 81 := by
  have htrig : MAX_CACHE_SIZE
        < cacheSize (store100 ++ [(CACHE_PREF ++ unaryId 100, StoredValue.good ⟨"x", 1000, 1⟩)])
      ∨ MAX_CACHE_ITEMS
        < cacheCount (store100 ++ [(CACHE_PREF ++ unaryId 100, StoredValue.good ⟨"x", 1000, 1⟩)]) :=
    Or.inl (by rw [cacheSize_store101]; norm_num [MAX_CACHE_SIZE])
  refine ⟨setOk_store100_eq, by rw [setOk_store100_eq]; exact cacheSize_store101, ?_⟩
  rw [setOk_store100_eq, setOk_eq]
  have hcln : cacheCount (ThumbnailCache.cleanupIfNeeded
      (store100 ++ [(CACHE_PREF ++ unaryId 100, StoredValue.good ⟨"x", 1000, 1⟩)])) = 80 := by
    rw [cleanupIfNeeded_good goodStore_store101, if_pos htrig,
      cacheCount_cleanup goodStore_store101 nodupKeys_store101, cacheCount_store101]
    norm_num [MAX_CACHE_ITEMS]
  have hsub : ((ThumbnailCache.cleanupIfNeeded
        (store100 ++ [(CACHE_PREF ++ unaryId 100, StoredValue.good ⟨"x", 1000, 1⟩)])).map
        Prod.fst).Sublist
      ((store100 ++ [(CACHE_PREF ++ unaryId 100, StoredValue.good ⟨"x", 1000, 1⟩)]).map Prod.fst) := by
    rw [cleanupIfNeeded_good goodStore_store101, if_pos htrig,
      cleanup_good goodStore_store101, foldl_removeItem_keys]
    exact keys_foldl_removeItem_sublist _ _
  have hfresh : CACHE_PREF ++ unaryId 101 ∉ (ThumbnailCache.cleanupIfNeeded
      (store100 ++ [(CACHE_PREF ++ unaryId 100, StoredValue.good ⟨"x", 1000, 1⟩)])).map Prod.fst := by
    intro hmem
    have hmem' := hsub.subset hmem
    rw [List.map_append] at hmem'
    rcases List.mem_append.mp hmem' with hmem' | hmem'
    · exact fresh_key_mkStore (by omega : 100 ≤ 101) "" 524288 hmem'
    · have : CACHE_PREF ++ unaryId 101 = CACHE_PREF ++ unaryId 100 := by simpa using hmem'
      have := key_injective this
      omega
  rw [cacheCount_setItem_fresh hfresh (jsStartsWith_pref_append _) _, hcln]

/-- C8: the 2D thumbnail layout on a 400×400 canvas: the source image of
dimensions `w × h` is drawn scaled by `min (400/w) (400/h)` at offset
`((400 − w·scale)/2, (400 − h·scale)/2)`; the scaled image fits in the
canvas, aspect ratio is preserved, and the 800×400 instance gives scale
1/2, drawn size 400×200, offset (0, 100).  (Geometry in exact rational
arithmetic; the 800×400 instance is exact in binary floating point too.) -/
theorem thumb2d_layout_spec (w h : ℚ) (hw : 0 < w) (hh : 0 < h) :
    thumb2dLayout w h = (w * min (400 / w) (400 / h), h * min (400 / w) (400 / h),
        (400 - w * min (400 / w) (400 / h)) / 2, (400 - h * min (400 / w) (400 / h)) / 2)
    ∧ w * min (400 / w) (400 / h) ≤ 400
    ∧ h * min (400 / w) (400 / h) ≤ 400
    ∧ h * (w * min (400 / w) (400 / h)) = w * (h * min (400 / w) (400 / h))
    ∧ thumb2dLayout 800 400 = (400, 200, 0, 100) := by
  refine ⟨rfl, ?_, ?_, by ring, by norm_num [thumb2dLayout, min_def]⟩
  · calc w * min (400 / w) (400 / h) ≤ w * (400 / w) :=
        mul_le_mul_of_nonneg_left (min_le_left _ _) hw.le
      _ = 400 := by field_simp
  · calc h * min (400 / w) (400 / h) ≤ h * (400 / h) :=
        mul_le_mul_of_nonneg_left (min_le_right _ _) hh.le
      _ = 400 := by field_simp

/-- C8 witness: the concrete 800×400 scenario through the theorem. -/
theorem thumb2d_layout_spec_witness :
    thumb2dLayout 800 400 = (400, 200, 0, 100) :=
  (thumb2d_layout_spec 800 400 (by norm_num) (by norm_num)).2.2.2.2

/-- C9: no cache operation lets an exception escape to its caller, for any
storage state and any write-failure behaviour: each exception-explicit
operation returns `ok` of the pure result (`get` returning `none` when the
read fails to parse). -/
theorem cache_ops_never_throw (wfail : Store → String → StoredValue → Bool)
    (s : Store) (now : Nat) (id url : String) (n : Nat) :
    ThumbnailCache.setE wfail s now id url = .ok (ThumbnailCache.set wfail s now id url)
    ∧ ThumbnailCache.getE s now id = .ok (ThumbnailCache.get s now id)
    ∧ ThumbnailCache.removeE s id = .ok (ThumbnailCache.remove s id)
    ∧ ThumbnailCache.clearE s = .ok (ThumbnailCache.clear s)
    ∧ ThumbnailCache.cleanupE s n = .ok (ThumbnailCache.cleanup s n)
    ∧ ThumbnailCache.getStatsE s = .ok (ThumbnailCache.getStats s)
    ∧ ThumbnailCache.hasE s now id = .ok (ThumbnailCache.has s now id) :=
  ⟨setE_ok wfail s now id url, getE_ok s now id, removeE_ok s id, clearE_ok s,
    cleanupE_ok s n, getStatsE_ok s, hasE_ok s now id⟩

/-- C10: `has` returns true exactly when `get` returns a payload, carries
out the same storage mutation as `get`, and in particular calling `has` on
an entry strictly older than 7 days deletes that entry from storage. -/
theorem has_iff_get (s : Store) (now : Nat) (id : String) :
    ((ThumbnailCache.has s now id).2 = true
      ↔ ∃ d, (ThumbnailCache.get s now id).2 = some d)
    ∧ (ThumbnailCache.has s now id).1 = (ThumbnailCache.get s now id).1
    ∧ (∀ e : CacheEntry, getItem s (CACHE_PREF ++ id) = some (.good e) →
        MAX_AGE_MS < now - e.timestamp →
        ThumbnailCache.has s now id = (removeItem s (CACHE_PREF ++ id), false)) := by
  refine ⟨?_, rfl, ?_⟩
  · simp [ThumbnailCache.has, Option.isSome_iff_exists]
  · intro e hit hage
    simp [ThumbnailCache.has, ThumbnailCache.get, hit, parse, hage]

/-- C10 witness: `has` on an 8-days-old entry deletes it and reports
false. -/
theorem has_iff_get_witness :
    ThumbnailCache.has [("thumbnail_a", .good ⟨"d", 0, 1⟩)] 691200000 "a"
      = ([], false) := by
  have h := (has_iff_get [("thumbnail_a", .good ⟨"d", 0, 1⟩)] 691200000 "a").2.2
    ⟨"d", 0, 1⟩ (by decide) (by decide)
  rw [h]
  decide
